import Mathlib

/-!
Verification of the provider-sync algorithm of `scripts/sync_commands.py`.

The embedding models file contents as `List Char` (Python `str` indexing is by
code point, matching `List Char` operations), the filesystem as an association
list from path to `(content, mtime)`, and mtimes as natural numbers (only their
order and the sentinel `0` for an absent file matter to the algorithm).
-/

namespace SyncCommands

/-- Mirrors the `ProviderSpec` dataclass: a provider's name, file path, and
literal header/footer wrapper strings. -/
structure ProviderSpec where
  name : String
  path : String
  header : List Char
  footer : List Char
deriving DecidableEq, Repr

/-- Mirrors the `CommandSpec` dataclass: a command name and its providers.
The Python code stores providers in a dict keyed by name (insertion order);
we model it as a list, with name-uniqueness stated where a proof needs it. -/
structure CommandSpec where
  name : String
  providers : List ProviderSpec
deriving DecidableEq, Repr

/-- The filesystem as a snapshot: an association list from path to
`(content, mtime)`; the first entry for a path is authoritative. -/
abbrev FS := List (String × List Char × Nat)

def fsLookup (fs : FS) (p : String) : Option (List Char × Nat) :=
  (fs.find? (fun e => e.1 == p)).map (fun e => e.2)

/-- `path.exists()` -/
def fsExists (fs : FS) (p : String) : Bool :=
  (fsLookup fs p).isSome

/-- Mirrors `read_text`: file content, or the empty string if absent. -/
def read_text (fs : FS) (p : String) : List Char :=
  match fsLookup fs p with
  | some c => c.1
  | none => []

/-- `path.stat().st_mtime` with the code's convention of `0.0` for an
absent file (`sync_command`, line 142). -/
def mtimeOf (fs : FS) (p : String) : Nat :=
  match fsLookup fs p with
  | some c => c.2
  | none => 0

/-- Mirrors `write_text` followed by `os.utime(path, (now, now))`: the new
entry shadows any previous entry for the path. -/
def fsWrite (fs : FS) (p : String) (content : List Char) (t : Nat) : FS :=
  (p, content, t) :: fs

/-- Python `s.rstrip("\n")`: remove every trailing newline. -/
def rstripNl (s : List Char) : List Char :=
  (s.reverse.dropWhile (fun c => c == '\n')).reverse

/-- Python `s.lstrip("\n")`: remove every leading newline. -/
def lstripNl (s : List Char) : List Char :=
  s.dropWhile (fun c => c == '\n')

/-- The header half of `get_body_from_provider_content` (lines 46-53): strip
the exact header if present, else the header with its trailing newlines
collapsed to exactly one. An empty header strips nothing. -/
def stripHeaderStep (content header : List Char) : List Char :=
  if header ≠ [] then
    if header.isPrefixOf content then
      content.drop header.length
    else if (rstripNl header ++ ['\n']).isPrefixOf content then
      content.drop ((rstripNl header).length + 1)
    else content
  else content

/-- The footer half of `get_body_from_provider_content` (lines 54-61): strip
the exact footer if present, else one newline followed by the footer with its
leading newlines removed. An empty footer strips nothing. -/
def stripFooterStep (content footer : List Char) : List Char :=
  if footer ≠ [] then
    if footer.isSuffixOf content then
      content.take (content.length - footer.length)
    else if (['\n'] ++ lstripNl footer).isSuffixOf content then
      content.take (content.length - ((lstripNl footer).length + 1))
    else content
  else content

/-- Mirrors `get_body_from_provider_content`: strip one header occurrence at
the front, then one footer occurrence at the end of the remainder. -/
def get_body_from_provider_content (provider : String) (content : List Char)
    (header footer : List Char) : List Char :=
  stripFooterStep (stripHeaderStep content header) footer

/-- Mirrors `strip_known_wrappers`: run every provider's strip step in order,
stopping early when the intermediate result becomes empty. -/
def strip_known_wrappers (content : List Char) (providers : List ProviderSpec) :
    List Char :=
  match providers with
  | [] => content
  | p :: rest =>
    if content = [] then content
    else strip_known_wrappers
      (get_body_from_provider_content p.name content p.header p.footer) rest

/-- Mirrors `assemble_provider_content`. -/
def assemble_provider_content (header body footer : List Char) : List Char :=
  header ++ body ++ footer

/-- The errors `sync_command` can raise (`SyncError` in the source), kept
structured: the fixed-primary-missing error of `detect_primary`, and the
sync conflict naming the conflicting providers and the primary. -/
inductive SyncErr where
  | primaryNotFound (policy : String) (command : String)
  | conflict (names : List String) (primary : String)
deriving DecidableEq, Repr

/-- One iteration of `detect_primary`'s auto loop: an existing file replaces
the candidate exactly when its mtime is strictly greater. -/
def autoStep (fs : FS) (cand : Option (String × Nat)) (p : ProviderSpec) :
    Option (String × Nat) :=
  if fsExists fs p.path then
    match cand with
    | none => some (p.name, mtimeOf fs p.path)
    | some c =>
      if c.2 < mtimeOf fs p.path then some (p.name, mtimeOf fs p.path) else cand
  else cand

/-- Mirrors `detect_primary`: a non-empty, non-"auto" policy must name a
provider of the command; auto mode picks the most recently modified existing
file, defaulting to "claude" when none exists. -/
def detect_primary (spec : CommandSpec) (fs : FS) (policy : String) :
    Except SyncErr String :=
  if policy ≠ "" ∧ policy ≠ "auto" then
    if spec.providers.any (fun p => p.name == policy) then Except.ok policy
    else Except.error (SyncErr.primaryNotFound policy spec.name)
  else
    match spec.providers.foldl (autoStep fs) none with
    | none => Except.ok "claude"
    | some c => Except.ok c.1

/-- `provider_bodies[p.name]` in `sync_command`: the provider's file content
normalized with the full provider set. -/
def bodyOf (spec : CommandSpec) (fs : FS) (p : ProviderSpec) : List Char :=
  strip_known_wrappers (read_text fs p.path) spec.providers

/-- Dict lookup `spec.providers[name]` (first provider with that name). -/
def findProvider (spec : CommandSpec) (name : String) : Option ProviderSpec :=
  spec.providers.find? (fun p => p.name == name)

/-- `provider_bodies.get(primary, "")`. -/
def primaryBodyOf (spec : CommandSpec) (fs : FS) (primary : String) : List Char :=
  match findProvider spec primary with
  | some p => bodyOf spec fs p
  | none => []

/-- `mtimes.get(primary, 0.0)`. -/
def primaryMtimeOf (spec : CommandSpec) (fs : FS) (primary : String) : Nat :=
  match findProvider spec primary with
  | some p => mtimeOf fs p.path
  | none => 0

/-- The `conflicting` dict of `sync_command` (lines 153-159), as the list of
recorded provider names in iteration order. -/
def conflictList (spec : CommandSpec) (fs : FS) (primary : String) : List String :=
  spec.providers.filterMap fun p =>
    if p.name ≠ primary ∧ bodyOf spec fs p ≠ [] ∧
        bodyOf spec fs p ≠ primaryBodyOf spec fs primary ∧
        primaryMtimeOf spec fs primary < mtimeOf fs p.path
    then some p.name else none

/-- One iteration of the propagation loop (lines 169-176): compare the
snapshot content read at the start of `sync_command` against the desired
content, and on a difference write the file (unless dry-run). -/
def propagateStep (fs0 : FS) (pb : List Char) (dryRun : Bool) (now : Nat)
    (acc : FS × List String) (p : ProviderSpec) : FS × List String :=
  let desired := assemble_provider_content p.header pb p.footer
  if read_text fs0 p.path ≠ desired then
    if dryRun then acc
    else (fsWrite acc.1 p.path desired now, acc.2 ++ [p.path])
  else acc

/-- The propagation loop over all providers, returning the new filesystem and
the list of written paths. -/
def propagate (spec : CommandSpec) (fs : FS) (pb : List Char) (dryRun : Bool)
    (now : Nat) : FS × List String :=
  spec.providers.foldl (propagateStep fs pb dryRun now) (fs, [])

/-- Result of one `sync_command` invocation: the final filesystem, the paths
written, and the raised `SyncError` if any (raised before any write). -/
structure SyncOutcome where
  fs : FS
  written : List String
  err : Option SyncErr
deriving DecidableEq, Repr

/-- Mirrors `sync_command`: resolve the primary, detect conflicts, and only
when none are recorded run the propagation loop. -/
def sync_command (spec : CommandSpec) (fs : FS) (policy : String)
    (dryRun : Bool) (now : Nat) : SyncOutcome :=
  match detect_primary spec fs policy with
  | Except.error e => ⟨fs, [], some e⟩
  | Except.ok primary =>
    if conflictList spec fs primary ≠ [] then
      ⟨fs, [], some (SyncErr.conflict (conflictList spec fs primary) primary)⟩
    else
      let r := propagate spec fs (primaryBodyOf spec fs primary) dryRun now
      ⟨r.1, r.2, none⟩

/-- Mirrors `main` after argument parsing, taking the loaded configuration as
input: exit 2 for a missing config file or unknown command, exit 1 when
`sync_command` raises `SyncError`, exit 0 otherwise. -/
def runCLI (configExists : Bool) (commands : List (String × CommandSpec))
    (policy : String) (cmdName : String) (dryRun : Bool) (fs : FS) (now : Nat) :
    Nat × FS :=
  if configExists = false then (2, fs)
  else
    match commands.find? (fun c => c.1 == cmdName) with
    | none => (2, fs)
    | some c =>
      let out := sync_command c.2 fs policy dryRun now
      match out.err with
      | some _ => (1, out.fs)
      | none => (0, out.fs)

deriving instance DecidableEq for Except

/-! ### Concrete scenarios used by witnesses and counterexamples -/

/-- A single provider whose header is `"H\n"`. -/
def provsH : List ProviderSpec := [⟨"claude", "a", "H\n".toList, []⟩]

/-- Two wrapper-free providers named alpha and beta. -/
def specA : CommandSpec := ⟨"cmd", [⟨"alpha", "a", [], []⟩, ⟨"beta", "b", [], []⟩]⟩

/-- Both provider files of `specA` exist, with different bodies and beta newer. -/
def fsA : FS := [("a", "X".toList, 100), ("b", "Y".toList, 200)]

/-! ### Structural lemmas about the normalizer -/

theorem stripHeaderStep_suffix (content header : List Char) :
    stripHeaderStep content header <:+ content := by
  unfold stripHeaderStep
  split_ifs
  · exact List.drop_suffix _ _
  · exact List.drop_suffix _ _
  · exact List.suffix_refl content
  · exact List.suffix_refl content

theorem stripFooterStep_pre (content footer : List Char) :
    stripFooterStep content footer <+: content := by
  unfold stripFooterStep
  split_ifs
  · exact List.take_prefix _ _
  · exact List.take_prefix _ _
  · exact List.prefix_refl content
  · exact List.prefix_refl content

theorem get_body_sub (pr : String) (content header footer : List Char) :
    get_body_from_provider_content pr content header footer <:+: content :=
  (stripFooterStep_pre (stripHeaderStep content header) footer).isInfix.trans
    (stripHeaderStep_suffix content header).isInfix

theorem strip_known_wrappers_nil (provs : List ProviderSpec) :
    strip_known_wrappers [] provs = [] := by
  cases provs with
  | nil => rfl
  | cons p rest => simp [strip_known_wrappers]

theorem strip_sub (content : List Char) (provs : List ProviderSpec) :
    strip_known_wrappers content provs <:+: content := by
  induction provs generalizing content with
  | nil => exact List.infix_rfl
  | cons p rest ih =>
    unfold strip_known_wrappers
    split_ifs
    · exact List.infix_rfl
    · exact (ih _).trans (get_body_sub p.name content p.header p.footer)

/-- A string left unchanged by every provider's single strip step is left
unchanged by the whole normalizer. -/
theorem strip_fixed (provs : List ProviderSpec) (s : List Char)
    (h : ∀ p ∈ provs,
      get_body_from_provider_content p.name s p.header p.footer = s) :
    strip_known_wrappers s provs = s := by
  induction provs with
  | nil => rfl
  | cons p rest ih =>
    unfold strip_known_wrappers
    split_ifs with hc
    · exact hc.symm ▸ rfl
    · rw [h p (List.mem_cons_self p rest)]
      exact ih fun q hq => h q (List.mem_cons_of_mem p hq)

theorem strip_cons (p : ProviderSpec) (rest : List ProviderSpec) (s : List Char) :
    strip_known_wrappers s (p :: rest) =
      if s = [] then s
      else strip_known_wrappers
        (get_body_from_provider_content p.name s p.header p.footer) rest := rfl

/-- Providers whose strip step fixes `s` can be dropped from the front of the
provider list without changing the normalizer's result. -/
theorem strip_skip (l1 rest : List ProviderSpec) (s : List Char)
    (h : ∀ q ∈ l1,
      get_body_from_provider_content q.name s q.header q.footer = s) :
    strip_known_wrappers s (l1 ++ rest) = strip_known_wrappers s rest := by
  induction l1 with
  | nil => rfl
  | cons q l1' ih =>
    rw [List.cons_append, strip_cons]
    split_ifs with hc
    · rw [hc, strip_known_wrappers_nil]
    · rw [h q (List.mem_cons_self q l1')]
      exact ih fun r hr => h r (List.mem_cons_of_mem q hr)

theorem stripHeaderStep_exact (header t : List Char) :
    stripHeaderStep (header ++ t) header = t := by
  unfold stripHeaderStep
  by_cases hh : header = []
  · simp [hh]
  · rw [if_pos hh,
      if_pos (List.isPrefixOf_iff_prefix.mpr (List.prefix_append header t)),
      List.drop_left]

theorem stripFooterStep_exact (footer t : List Char) :
    stripFooterStep (t ++ footer) footer = t := by
  unfold stripFooterStep
  by_cases hf : footer = []
  · simp [hf]
  · rw [if_pos hf,
      if_pos (List.isSuffixOf_iff_suffix.mpr (List.suffix_append t footer))]
    rw [List.length_append, Nat.add_sub_cancel, List.take_left]

/-- Stripping a provider's own wrappers from its assembled content recovers
the body exactly. -/
theorem get_body_exact (pr : String) (header b footer : List Char) :
    get_body_from_provider_content pr
      (assemble_provider_content header b footer) header footer = b := by
  unfold get_body_from_provider_content assemble_provider_content
  rw [List.append_assoc, stripHeaderStep_exact, stripFooterStep_exact]

/-! ### Claim C9 -/

/-- C9: for every content string and provider set, the normalizer's result is
a contiguous substring of the input obtained by deleting only a prefix and a
suffix (`<:+:` is exactly `∃ pre post, pre ++ result ++ post = content`); in
particular the result is never longer than the input, and the empty string
maps to the empty string. -/
theorem strip_deletes_only_ends (content : List Char) (provs : List ProviderSpec) :
    strip_known_wrappers content provs <:+: content ∧
    (strip_known_wrappers content provs).length ≤ content.length ∧
    strip_known_wrappers [] provs = [] :=
  ⟨strip_sub content provs, (strip_sub content provs).length_le,
    strip_known_wrappers_nil provs⟩

/-! ### Claim C3 -/

/-- C3 counterexample: `strip_known_wrappers` is not idempotent. With a single
provider whose header is `"H\n"` and the content `"H\nH\nbody"`, one pass
yields `"H\nbody"` and a second pass strips again, yielding `"body"`. -/
theorem strip_not_idempotent :
    strip_known_wrappers
        (strip_known_wrappers "H\nH\nbody".toList provsH) provsH ≠
      strip_known_wrappers "H\nH\nbody".toList provsH := by decide

/-- C3 amended: `strip_known_wrappers` is idempotent on an input whose
normalized form is left unchanged by every provider's single strip step
(re-running on such an already-stripped body is a no-op); in general a second
application can strip further wrapper occurrences. -/
theorem strip_idempotent_on_fixed (x : List Char) (provs : List ProviderSpec)
    (h : ∀ p ∈ provs,
      get_body_from_provider_content p.name (strip_known_wrappers x provs)
        p.header p.footer = strip_known_wrappers x provs) :
    strip_known_wrappers (strip_known_wrappers x provs) provs =
      strip_known_wrappers x provs :=
  strip_fixed provs (strip_known_wrappers x provs) h

/-- Witness for the amended C3 at a concrete input. -/
theorem strip_idempotent_on_fixed_witness :
    (∀ p ∈ provsH,
      get_body_from_provider_content p.name
        (strip_known_wrappers "H\nbody".toList provsH) p.header p.footer =
        strip_known_wrappers "H\nbody".toList provsH) ∧
    strip_known_wrappers (strip_known_wrappers "H\nbody".toList provsH) provsH =
      strip_known_wrappers "H\nbody".toList provsH :=
  ⟨by decide, strip_idempotent_on_fixed "H\nbody".toList provsH (by decide)⟩

/-! ### Claim C4 -/

/-- C4: normalizing an assembled file round-trips to the body, for any body
that does not collide with the provider set's wrappers. "No collision" is
formalized as: providers stripped before the assembling provider leave the
assembled content unchanged, and providers stripped after it leave the bare
body unchanged (the assembling provider's own step is exact and needs no
side condition). -/
theorem strip_assemble_roundtrip (l1 l2 : List ProviderSpec) (p : ProviderSpec)
    (b : List Char)
    (h1 : ∀ q ∈ l1,
      get_body_from_provider_content q.name
        (assemble_provider_content p.header b p.footer) q.header q.footer =
        assemble_provider_content p.header b p.footer)
    (h2 : ∀ q ∈ l2,
      get_body_from_provider_content q.name b q.header q.footer = b) :
    strip_known_wrappers (assemble_provider_content p.header b p.footer)
      (l1 ++ p :: l2) = b := by
  rw [strip_skip l1 (p :: l2) _ h1, strip_cons]
  split_ifs with hA
  · have hb : b = [] := by
      have h' := hA
      unfold assemble_provider_content at h'
      rcases List.append_eq_nil.mp h' with ⟨h1', -⟩
      exact (List.append_eq_nil.mp h1').2
    rw [hA, hb]
  · rw [get_body_exact]
    exact strip_fixed l2 b h2

/-- Witness for C4: the end-to-end scenario's wrappers round-trip on the body
`"Do the thing"`. -/
theorem strip_assemble_roundtrip_witness :
    (∀ q ∈ [(⟨"cursor", "b.md", [], "\n<!-- end -->".toList⟩ : ProviderSpec)],
      get_body_from_provider_content q.name "Do the thing".toList
        q.header q.footer = "Do the thing".toList) ∧
    strip_known_wrappers
      (assemble_provider_content "<!-- claude -->\n".toList
        "Do the thing".toList [])
      ([] ++ (⟨"claude", "a.md", "<!-- claude -->\n".toList, []⟩ : ProviderSpec) ::
        [(⟨"cursor", "b.md", [], "\n<!-- end -->".toList⟩ : ProviderSpec)]) =
      "Do the thing".toList :=
  ⟨by decide,
    strip_assemble_roundtrip []
      [(⟨"cursor", "b.md", [], "\n<!-- end -->".toList⟩ : ProviderSpec)]
      ⟨"claude", "a.md", "<!-- claude -->\n".toList, []⟩
      "Do the thing".toList (by decide) (by decide)⟩

/-! ### Claim C8 -/

/-- The end-to-end scenario's command: `claude` with header
`"<!-- claude -->\n"` writing `a.md`, `cursor` with footer `"\n<!-- end -->"`
writing `b.md`. -/
def specEmails : CommandSpec :=
  ⟨"emails",
   [⟨"claude", "a.md", "<!-- claude -->\n".toList, []⟩,
    ⟨"cursor", "b.md", [], "\n<!-- end -->".toList⟩]⟩

/-- The end-to-end scenario's filesystem: `a.md` holds the wrapped body,
`b.md` does not exist. -/
def fsEmails : FS := [("a.md", "<!-- claude -->\nDo the thing".toList, 100)]

/-- C8: in the end-to-end scenario (auto primary, `a.md` newest and wrapped,
`b.md` absent) the CLI run exits 0, creates `b.md` with exactly
`"Do the thing\n<!-- end -->"`, and leaves `a.md`'s content unchanged. -/
theorem end_to_end_emails :
    fsExists fsEmails "b.md" = false ∧
    (runCLI true [("emails", specEmails)] "auto" "emails" false fsEmails 200).1
      = 0 ∧
    read_text
      (runCLI true [("emails", specEmails)] "auto" "emails" false fsEmails 200).2
      "b.md" = "Do the thing\n<!-- end -->".toList ∧
    read_text
      (runCLI true [("emails", specEmails)] "auto" "emails" false fsEmails 200).2
      "a.md" = "<!-- claude -->\nDo the thing".toList := by decide

/-! ### Claim C1 -/

/-- C1: a provider name is recorded in the conflict list exactly when it
belongs to a non-primary provider whose normalized body is non-empty, differs
from the primary's normalized body, and whose file mtime is strictly greater
than the primary's; additionally, an absent file contributes empty content and
mtime 0. -/
theorem conflict_recorded_iff (spec : CommandSpec) (fs : FS)
    (primary nm : String) :
    (nm ∈ conflictList spec fs primary ↔
      ∃ p ∈ spec.providers, p.name = nm ∧ nm ≠ primary ∧
        bodyOf spec fs p ≠ [] ∧
        bodyOf spec fs p ≠ primaryBodyOf spec fs primary ∧
        primaryMtimeOf spec fs primary < mtimeOf fs p.path) ∧
    (∀ q : String, fsExists fs q = false →
      read_text fs q = [] ∧ mtimeOf fs q = 0) := by
  constructor
  · unfold conflictList
    rw [List.mem_filterMap]
    constructor
    · rintro ⟨p, hp, hf⟩
      split_ifs at hf with hcond
      obtain ⟨h1, h2, h3, h4⟩ := hcond
      injection hf with hname
      exact ⟨p, hp, hname, hname ▸ h1, h2, h3, h4⟩
    · rintro ⟨p, hp, hname, h1, h2, h3, h4⟩
      exact ⟨p, hp, by rw [if_pos ⟨hname ▸ h1, h2, h3, h4⟩, hname]⟩
  · intro q hq
    unfold fsExists at hq
    unfold read_text mtimeOf
    cases ho : fsLookup fs q with
    | none => exact ⟨rfl, rfl⟩
    | some v => rw [ho] at hq; simp at hq

/-- Witness for C1: in `specA`/`fsA` with primary `alpha`, provider `beta`
(different newer body) is recorded; the absent path `"c"` reads as empty with
mtime 0. -/
theorem conflict_recorded_iff_witness :
    "beta" ∈ conflictList specA fsA "alpha" ∧
    read_text fsA "c" = [] ∧ mtimeOf fsA "c" = 0 :=
  ⟨(conflict_recorded_iff specA fsA "alpha" "beta").1.mpr
      ⟨⟨"beta", "b", [], []⟩, by decide, by decide, by decide, by decide,
        by decide, by decide⟩,
    (conflict_recorded_iff specA fsA "alpha" "beta").2 "c" (by decide)⟩

/-! ### Claim C2 -/

/-- C2: whenever at least one conflict is recorded, `sync_command` raises the
sync-conflict error naming the conflicting providers and the primary, leaves
the filesystem untouched, and writes nothing — the propagation step does not
run. -/
theorem conflict_aborts_sync (spec : CommandSpec) (fs : FS) (policy : String)
    (dryRun : Bool) (now : Nat) (primary : String)
    (hp : detect_primary spec fs policy = Except.ok primary)
    (hc : conflictList spec fs primary ≠ []) :
    sync_command spec fs policy dryRun now =
      ⟨fs, [], some (SyncErr.conflict (conflictList spec fs primary) primary)⟩ := by
  unfold sync_command
  rw [hp]
  exact if_pos hc

/-- Witness for C2: with fixed primary `alpha` and a newer, different `beta`,
the sync aborts with the conflict error and an unchanged filesystem. -/
theorem conflict_aborts_sync_witness :
    sync_command specA fsA "alpha" false 300 =
      ⟨fsA, [], some (SyncErr.conflict ["beta"] "alpha")⟩ := by
  rw [conflict_aborts_sync specA fsA "alpha" false 300 "alpha" (by decide)
    (by decide)]
  decide

/-! ### Auto-primary fold lemmas -/

theorem autoStep_none_inv (fs : FS) (cand : Option (String × Nat))
    (p : ProviderSpec) (h : autoStep fs cand p = none) :
    cand = none ∧ fsExists fs p.path = false := by
  cases cand with
  | none =>
    simp only [autoStep] at h
    split_ifs at h with he
    exact ⟨rfl, by simpa using he⟩
  | some c =>
    simp only [autoStep] at h
    split_ifs at h

theorem autoFold_allAbsent (fs : FS) (l : List ProviderSpec)
    (cand : Option (String × Nat)) (h : ∀ p ∈ l, fsExists fs p.path = false) :
    l.foldl (autoStep fs) cand = cand := by
  induction l generalizing cand with
  | nil => rfl
  | cons p rest ih =>
    rw [List.foldl_cons]
    have hstep : autoStep fs cand p = cand := by
      unfold autoStep
      rw [h p (List.mem_cons_self p rest)]
      simp
    rw [hstep]
    exact ih cand fun q hq => h q (List.mem_cons_of_mem p hq)

theorem autoFold_none_inv (fs : FS) (l : List ProviderSpec) :
    ∀ cand, l.foldl (autoStep fs) cand = none →
      cand = none ∧ ∀ p ∈ l, fsExists fs p.path = false := by
  induction l with
  | nil => exact fun cand h => ⟨h, by simp⟩
  | cons p rest ih =>
    intro cand h
    rw [List.foldl_cons] at h
    obtain ⟨h1, h2⟩ := ih _ h
    obtain ⟨h3, h4⟩ := autoStep_none_inv fs cand p h1
    refine ⟨h3, fun q hq => ?_⟩
    rcases List.mem_cons.mp hq with rfl | hq'
    · exact h4
    · exact h2 q hq'

theorem autoStep_le (fs : FS) (cand : Option (String × Nat)) (p : ProviderSpec)
    (n1 : String) (m1 : Nat) (h : autoStep fs cand p = some (n1, m1)) :
    (∀ n0 m0, cand = some (n0, m0) → m0 ≤ m1) ∧
    (fsExists fs p.path = true → mtimeOf fs p.path ≤ m1) := by
  cases cand with
  | none =>
    simp only [autoStep] at h
    split_ifs at h with he
    injection h with h'
    injection h' with ha hb
    exact ⟨fun n0 m0 hc => by simp at hc, fun _ => Nat.le_of_eq hb⟩
  | some c =>
    simp only [autoStep] at h
    split_ifs at h with he hlt
    · injection h with h'
      injection h' with ha hb
      refine ⟨fun n0 m0 hc => ?_, fun _ => Nat.le_of_eq hb⟩
      injection hc with hc'
      rw [hc'] at hlt
      exact Nat.le_trans (Nat.le_of_lt hlt) (Nat.le_of_eq hb)
    · injection h with h'
      refine ⟨fun n0 m0 hc => ?_, fun _ => ?_⟩
      · injection hc with hc'
        rw [h'] at hc'
        injection hc' with hx hy
        exact Nat.le_of_eq hy.symm
      · have hc2 : c.2 = m1 := by rw [h']
        rw [← hc2]
        exact Nat.le_of_not_lt hlt
    · injection h with h'
      refine ⟨fun n0 m0 hc => ?_,
        fun hex => absurd hex (by simpa using he)⟩
      injection hc with hc'
      rw [h'] at hc'
      injection hc' with hx hy
      exact Nat.le_of_eq hy.symm

theorem autoFold_some_inv (fs : FS) (l : List ProviderSpec) :
    ∀ cand (n : String) (m : Nat), l.foldl (autoStep fs) cand = some (n, m) →
      ((∃ p ∈ l, p.name = n ∧ fsExists fs p.path = true ∧
          mtimeOf fs p.path = m) ∨ cand = some (n, m)) ∧
      (∀ p ∈ l, fsExists fs p.path = true → mtimeOf fs p.path ≤ m) ∧
      (∀ n0 m0, cand = some (n0, m0) → m0 ≤ m) := by
  induction l with
  | nil =>
    intro cand n m h
    have h' : cand = some (n, m) := h
    refine ⟨Or.inr h', by simp, fun n0 m0 hc => ?_⟩
    rw [h'] at hc
    injection hc with hc'
    injection hc' with hc1 hc2
    exact Nat.le_of_eq hc2.symm
  | cons p rest ih =>
    intro cand n m h
    rw [List.foldl_cons] at h
    obtain ⟨hmem, hmax, hcand⟩ := ih (autoStep fs cand p) n m h
    refine ⟨?_, ?_, ?_⟩
    · rcases hmem with ⟨q, hq, hprops⟩ | h'
      · exact Or.inl ⟨q, List.mem_cons_of_mem p hq, hprops⟩
      · cases cand with
        | none =>
          simp only [autoStep] at h'
          split_ifs at h' with he
          injection h' with h''
          injection h'' with ha hb
          exact Or.inl ⟨p, List.mem_cons_self p rest, ha, he, hb⟩
        | some c =>
          simp only [autoStep] at h'
          split_ifs at h' with he hlt
          · injection h' with h''
            injection h'' with ha hb
            exact Or.inl ⟨p, List.mem_cons_self p rest, ha, he, hb⟩
          · exact Or.inr h'
          · exact Or.inr h'
    · intro q hq hqe
      rcases List.mem_cons.mp hq with rfl | hq'
      · cases hstep : autoStep fs cand q with
        | none =>
          exact absurd hqe (by simp [(autoStep_none_inv fs cand q hstep).2])
        | some c' =>
          exact Nat.le_trans ((autoStep_le fs cand q c'.1 c'.2 hstep).2 hqe)
            (hcand c'.1 c'.2 hstep)
      · exact hmax q hq' hqe
    · intro n0 m0 hc
      cases hstep : autoStep fs cand p with
      | none =>
        rw [(autoStep_none_inv fs cand p hstep).1] at hc
        simp at hc
      | some c' =>
        exact Nat.le_trans
          ((autoStep_le fs cand p c'.1 c'.2 hstep).1 n0 m0 hc)
          (hcand c'.1 c'.2 hstep)

/-! ### Claim C6 -/

/-- C6: with policy "auto", `detect_primary` returns "claude" when no
provider file exists, and otherwise the name of an existing provider file of
maximal mtime (a single choice, since `detect_primary` is a function of its
inputs); with a fixed policy it returns the policy when it names a provider
of the command and fails with the configuration error otherwise. -/
theorem detect_primary_characterization (spec : CommandSpec) (fs : FS) :
    ((∀ p ∈ spec.providers, fsExists fs p.path = false) →
        detect_primary spec fs "auto" = Except.ok "claude") ∧
    ((∃ p ∈ spec.providers, fsExists fs p.path = true) →
        ∃ p ∈ spec.providers, fsExists fs p.path = true ∧
          detect_primary spec fs "auto" = Except.ok p.name ∧
          ∀ q ∈ spec.providers, fsExists fs q.path = true →
            mtimeOf fs q.path ≤ mtimeOf fs p.path) ∧
    (∀ policy : String, policy ≠ "" → policy ≠ "auto" →
      ((∃ p ∈ spec.providers, p.name = policy) →
          detect_primary spec fs policy = Except.ok policy) ∧
      ((∀ p ∈ spec.providers, p.name ≠ policy) →
          detect_primary spec fs policy =
            Except.error (SyncErr.primaryNotFound policy spec.name))) := by
  refine ⟨?_, ?_, ?_⟩
  · intro h
    unfold detect_primary
    rw [if_neg (by simp), autoFold_allAbsent fs spec.providers none h]
  · rintro ⟨p0, hp0, he0⟩
    unfold detect_primary
    rw [if_neg (by simp)]
    cases hf : spec.providers.foldl (autoStep fs) none with
    | none =>
      exact absurd he0
        (by simp [(autoFold_none_inv fs spec.providers none hf).2 p0 hp0])
    | some c =>
      obtain ⟨hmem, hmax, -⟩ :=
        autoFold_some_inv fs spec.providers none c.1 c.2 (by rw [hf])
      rcases hmem with ⟨q, hq, hnm, hqe, hqm⟩ | hcontr
      · exact ⟨q, hq, hqe, by rw [hnm], fun r hr hre => by
          rw [hqm]; exact hmax r hr hre⟩
      · exact absurd hcontr (by simp)
  · intro policy h1 h2
    constructor
    · rintro ⟨p, hp, hname⟩
      have hb : (p.name == policy) = true := by simp [hname]
      unfold detect_primary
      rw [if_pos ⟨h1, h2⟩, if_pos (List.any_eq_true.mpr ⟨p, hp, hb⟩)]
    · intro hall
      have hb : ¬(spec.providers.any fun p => p.name == policy) = true := by
        rw [List.any_eq_true]
        rintro ⟨p, hp, hbeq⟩
        exact hall p hp (by simpa using hbeq)
      unfold detect_primary
      rw [if_pos ⟨h1, h2⟩, if_neg hb]

/-- Witness for C6, instantiating all three branches: the claude fallback on
an empty filesystem, the existing-file maximal-mtime case, and the fixed
policy case. -/
theorem detect_primary_characterization_witness :
    detect_primary specA ([] : FS) "auto" = Except.ok "claude" ∧
    detect_primary specA fsA "beta" = Except.ok "beta" ∧
    (∃ p ∈ specA.providers, fsExists fsA p.path = true ∧
      detect_primary specA fsA "auto" = Except.ok p.name ∧
      ∀ q ∈ specA.providers, fsExists fsA q.path = true →
        mtimeOf fsA q.path ≤ mtimeOf fsA p.path) :=
  ⟨(detect_primary_characterization specA []).1 (by decide),
   ((detect_primary_characterization specA fsA).2.2 "beta" (by decide)
      (by decide)).1 ⟨⟨"beta", "b", [], []⟩, by decide, by decide⟩,
   (detect_primary_characterization specA fsA).2.1
      ⟨⟨"alpha", "a", [], []⟩, by decide, by decide⟩⟩

/-! ### Claim C7 -/

/-- When `sync_command` raises, it raises before any write: the outcome is the
unchanged filesystem, an empty write list, and the error. -/
theorem sync_err_unchanged (spec : CommandSpec) (fs : FS) (policy : String)
    (dryRun : Bool) (now : Nat) (e : SyncErr)
    (h : (sync_command spec fs policy dryRun now).err = some e) :
    sync_command spec fs policy dryRun now = ⟨fs, [], some e⟩ := by
  cases hd : detect_primary spec fs policy with
  | error e' =>
    have hs : sync_command spec fs policy dryRun now = ⟨fs, [], some e'⟩ := by
      unfold sync_command
      rw [hd]
    rw [hs] at h
    have he2 : e' = e := by simpa using h
    rw [hs, he2]
  | ok primary =>
    by_cases hc : conflictList spec fs primary ≠ []
    · have hs : sync_command spec fs policy dryRun now =
          ⟨fs, [],
            some (SyncErr.conflict (conflictList spec fs primary) primary)⟩ := by
        unfold sync_command
        rw [hd]
        exact if_pos hc
      rw [hs] at h
      have he2 : SyncErr.conflict (conflictList spec fs primary) primary = e := by
        simpa using h
      rw [hs, he2]
    · have hs : sync_command spec fs policy dryRun now =
          ⟨(propagate spec fs (primaryBodyOf spec fs primary) dryRun now).1,
           (propagate spec fs (primaryBodyOf spec fs primary) dryRun now).2,
           none⟩ := by
        unfold sync_command
        rw [hd]
        exact if_neg hc
      rw [hs] at h
      simp at h

/-- C7 counterexample: the claim says exit code 1 occurs exactly for a sync
conflict, but a fixed `primary_provider` that is not among the command's
providers also raises `SyncError` and exits 1 — with no conflict recorded. -/
theorem exit_code_one_without_conflict :
    (runCLI true [("emails", ⟨"emails", [⟨"claude", "a", [], []⟩]⟩)]
      "cursor" "emails" false [] 5).1 = 1 ∧
    (sync_command ⟨"emails", [⟨"claude", "a", [], []⟩]⟩ [] "cursor" false 5).err
      = some (SyncErr.primaryNotFound "cursor" "emails") ∧
    conflictList ⟨"emails", [⟨"claude", "a", [], []⟩]⟩ [] "cursor" = [] := by
  decide

/-- C7 amended: the CLI exits 2 when the config file is missing or the command
name is unknown; otherwise it exits 1 whenever `sync_command` raises a
`SyncError` — a sync conflict or a configured fixed primary missing from the
command — leaving the filesystem unchanged, and exits 0 on success. -/
theorem cli_exit_codes (configExists : Bool)
    (commands : List (String × CommandSpec)) (policy cmdName : String)
    (dryRun : Bool) (fs : FS) (now : Nat) :
    (configExists = false →
      runCLI configExists commands policy cmdName dryRun fs now = (2, fs)) ∧
    (commands.find? (fun c => c.1 == cmdName) = none →
      runCLI configExists commands policy cmdName dryRun fs now = (2, fs)) ∧
    (∀ nm sp, configExists = true →
      commands.find? (fun c => c.1 == cmdName) = some (nm, sp) →
      ((sync_command sp fs policy dryRun now).err = none →
        runCLI configExists commands policy cmdName dryRun fs now =
          (0, (sync_command sp fs policy dryRun now).fs)) ∧
      (∀ e, (sync_command sp fs policy dryRun now).err = some e →
        runCLI configExists commands policy cmdName dryRun fs now = (1, fs))) := by
  refine ⟨?_, ?_, ?_⟩
  · intro h
    unfold runCLI
    rw [if_pos h]
  · intro h
    unfold runCLI
    by_cases hce : configExists = false
    · rw [if_pos hce]
    · rw [if_neg hce, h]
  · intro nm sp hce hf
    constructor
    · intro he
      unfold runCLI
      rw [if_neg (by simp [hce]), hf]
      dsimp only
      rw [he]
    · intro e he
      unfold runCLI
      rw [if_neg (by simp [hce]), hf]
      dsimp only
      rw [sync_err_unchanged sp fs policy dryRun now e he]

/-- Witness for the amended C7, hitting all four exits on concrete inputs. -/
theorem cli_exit_codes_witness :
    runCLI false [("emails", ⟨"emails", [⟨"claude", "a", [], []⟩]⟩)]
      "auto" "emails" false [] 5 = (2, []) ∧
    runCLI true [] "auto" "emails" false [] 5 = (2, []) ∧
    runCLI true [("emails", ⟨"emails", [⟨"claude", "a", [], []⟩]⟩)]
      "auto" "emails" false [] 5 =
      (0, (sync_command ⟨"emails", [⟨"claude", "a", [], []⟩]⟩ [] "auto" false 5).fs) ∧
    runCLI true [("emails", ⟨"emails", [⟨"claude", "a", [], []⟩]⟩)]
      "cursor" "emails" false [] 5 = (1, []) :=
  ⟨(cli_exit_codes false [("emails", ⟨"emails", [⟨"claude", "a", [], []⟩]⟩)]
      "auto" "emails" false [] 5).1 rfl,
   (cli_exit_codes true [] "auto" "emails" false [] 5).2.1 rfl,
   ((cli_exit_codes true [("emails", ⟨"emails", [⟨"claude", "a", [], []⟩]⟩)]
      "auto" "emails" false [] 5).2.2 "emails" ⟨"emails", [⟨"claude", "a", [], []⟩]⟩
      rfl (by decide)).1 (by decide),
   ((cli_exit_codes true [("emails", ⟨"emails", [⟨"claude", "a", [], []⟩]⟩)]
      "cursor" "emails" false [] 5).2.2 "emails" ⟨"emails", [⟨"claude", "a", [], []⟩]⟩
      rfl (by decide)).2 (SyncErr.primaryNotFound "cursor" "emails") (by decide)⟩

/-! ### Claim C10 -/

/-- An absent file reads as the empty string and has mtime 0. -/
theorem absent_file (fs : FS) (q : String) (h : fsExists fs q = false) :
    read_text fs q = [] ∧ mtimeOf fs q = 0 := by
  unfold fsExists at h
  unfold read_text mtimeOf
  cases ho : fsLookup fs q with
  | none => exact ⟨rfl, rfl⟩
  | some v => rw [ho] at h; simp at h

/-- With unique provider names, the dict lookup by a member's name returns
that member. -/
theorem find_name_of_nodup (l : List ProviderSpec) (p0 : ProviderSpec)
    (hnd : (l.map (fun p => p.name)).Nodup) (hmem : p0 ∈ l) :
    l.find? (fun p => p.name == p0.name) = some p0 := by
  induction l with
  | nil => simp at hmem
  | cons q rest ih =>
    rcases List.mem_cons.mp hmem with rfl | hmem'
    · rw [List.find?_cons_of_pos _ (by simp)]
    · by_cases hq : q.name = p0.name
      · exfalso
        have hin : p0.name ∈ rest.map (fun p => p.name) :=
          List.mem_map_of_mem _ hmem'
        rw [← hq] at hin
        exact (List.nodup_cons.mp hnd).1 hin
      · rw [List.find?_cons_of_neg _ (by simpa using hq)]
        exact ih (List.nodup_cons.mp hnd).2 hmem'

/-- C10: when the configured fixed primary is a provider of the command whose
file is absent (mtime 0, empty body), every other provider with a non-empty
normalized body and positive mtime is recorded as conflicting, so the sync
raises the conflict error as soon as any other provider has a non-empty body,
and succeeds when all other bodies are empty. The filesystem is assumed to
give positive mtimes to existing files, matching real filesystems and the
code's use of 0 as the absent sentinel. -/
theorem missing_fixed_primary_conflicts (spec : CommandSpec) (fs : FS)
    (policy : String) (dryRun : Bool) (now : Nat) (p0 : ProviderSpec)
    (hnd : (spec.providers.map (fun p => p.name)).Nodup)
    (hmem : p0 ∈ spec.providers) (hname : p0.name = policy)
    (hpol1 : policy ≠ "") (hpol2 : policy ≠ "auto")
    (habs : fsExists fs p0.path = false)
    (hpos : ∀ q ∈ spec.providers, fsExists fs q.path = true →
      0 < mtimeOf fs q.path) :
    (∀ q ∈ spec.providers, q.name ≠ policy → bodyOf spec fs q ≠ [] →
        0 < mtimeOf fs q.path → q.name ∈ conflictList spec fs policy) ∧
    ((∃ q ∈ spec.providers, q.name ≠ policy ∧ bodyOf spec fs q ≠ []) →
        (sync_command spec fs policy dryRun now).err =
          some (SyncErr.conflict (conflictList spec fs policy) policy) ∧
        conflictList spec fs policy ≠ []) ∧
    ((∀ q ∈ spec.providers, q.name ≠ policy → bodyOf spec fs q = []) →
        (sync_command spec fs policy dryRun now).err = none) := by
  have hfind : findProvider spec policy = some p0 := by
    unfold findProvider
    rw [← hname]
    exact find_name_of_nodup spec.providers p0 hnd hmem
  have hpb : primaryBodyOf spec fs policy = [] := by
    unfold primaryBodyOf
    rw [hfind]
    dsimp only
    unfold bodyOf
    rw [(absent_file fs p0.path habs).1, strip_known_wrappers_nil]
  have hpm : primaryMtimeOf spec fs policy = 0 := by
    unfold primaryMtimeOf
    rw [hfind]
    dsimp only
    exact (absent_file fs p0.path habs).2
  have hdet : detect_primary spec fs policy = Except.ok policy := by
    unfold detect_primary
    rw [if_pos ⟨hpol1, hpol2⟩,
      if_pos (List.any_eq_true.mpr ⟨p0, hmem, by simp [hname]⟩)]
  have h1 : ∀ q ∈ spec.providers, q.name ≠ policy → bodyOf spec fs q ≠ [] →
      0 < mtimeOf fs q.path → q.name ∈ conflictList spec fs policy := by
    intro q hq hne hb hm
    unfold conflictList
    rw [List.mem_filterMap]
    refine ⟨q, hq, ?_⟩
    rw [if_pos ⟨hne, hb, by rw [hpb]; exact hb, by rw [hpm]; exact hm⟩]
  refine ⟨h1, ?_, ?_⟩
  · rintro ⟨q, hq, hne, hb⟩
    have hqe : fsExists fs q.path = true := by
      by_contra hqe
      have hqf : fsExists fs q.path = false := by simpa using hqe
      apply hb
      unfold bodyOf
      rw [(absent_file fs q.path hqf).1, strip_known_wrappers_nil]
    have hmemconf : q.name ∈ conflictList spec fs policy :=
      h1 q hq hne hb (hpos q hq hqe)
    have hcne : conflictList spec fs policy ≠ [] := by
      intro hnil
      rw [hnil] at hmemconf
      simp at hmemconf
    have hs : sync_command spec fs policy dryRun now =
        ⟨fs, [], some (SyncErr.conflict (conflictList spec fs policy) policy)⟩ := by
      unfold sync_command
      rw [hdet]
      exact if_pos hcne
    exact ⟨by rw [hs], hcne⟩
  · intro hall
    have hcnil : conflictList spec fs policy = [] := by
      unfold conflictList
      rw [List.filterMap_eq_nil_iff]
      intro q hq
      by_cases hne : q.name = policy
      · exact if_neg fun hcond => hcond.1 hne
      · exact if_neg fun hcond => hcond.2.1 (hall q hq hne)
    have hs : sync_command spec fs policy dryRun now =
        ⟨(propagate spec fs (primaryBodyOf spec fs policy) dryRun now).1,
         (propagate spec fs (primaryBodyOf spec fs policy) dryRun now).2,
         none⟩ := by
      unfold sync_command
      rw [hdet]
      exact if_neg (by simp [hcnil])
    rw [hs]

/-- The C10 scenario: fixed primary `claude` whose file `a` is absent, while
`cursor`'s file `b` exists with body `"Y"`. -/
def specMissing : CommandSpec :=
  ⟨"cmd", [⟨"claude", "a", [], []⟩, ⟨"cursor", "b", [], []⟩]⟩

/-- Filesystem for the C10 scenario: only `b` exists. -/
def fsMissing : FS := [("b", "Y".toList, 50)]

/-- Witness for C10: the concrete missing-primary scenario aborts with a
conflict. -/
theorem missing_fixed_primary_conflicts_witness :
    (sync_command specMissing fsMissing "claude" false 60).err =
      some (SyncErr.conflict (conflictList specMissing fsMissing "claude")
        "claude") ∧
    conflictList specMissing fsMissing "claude" ≠ [] :=
  (missing_fixed_primary_conflicts specMissing fsMissing "claude" false 60
    ⟨"claude", "a", [], []⟩ (by decide) (by decide) (by decide) (by decide)
    (by decide) (by decide) (by decide)).2.1
    ⟨⟨"cursor", "b", [], []⟩, by decide, by decide, by decide⟩

/-! ### Propagation lemmas -/

theorem fsLookup_write (fs : FS) (p : String) (c : List Char) (t : Nat)
    (q : String) :
    fsLookup (fsWrite fs p c t) q =
      if p = q then some (c, t) else fsLookup fs q := by
  unfold fsWrite fsLookup
  by_cases h : p = q
  · rw [if_pos h, List.find?_cons_of_pos _ (by simpa using h)]
    rfl
  · rw [if_neg h, List.find?_cons_of_neg _ (by simpa using h)]

theorem read_text_write_same (fs : FS) (p : String) (c : List Char) (t : Nat) :
    read_text (fsWrite fs p c t) p = c := by
  unfold read_text
  rw [fsLookup_write, if_pos rfl]

theorem read_text_write_other (fs : FS) (p : String) (c : List Char) (t : Nat)
    (q : String) (h : p ≠ q) :
    read_text (fsWrite fs p c t) q = read_text fs q := by
  unfold read_text
  rw [fsLookup_write, if_neg h]

/-- The propagation fold never touches a path outside the provider list. -/
theorem propagate_frame (fs0 : FS) (pb : List Char) (dryRun : Bool) (now : Nat)
    (l : List ProviderSpec) (acc : FS × List String) (q : String)
    (hq : q ∉ l.map (fun p => p.path)) :
    read_text (l.foldl (propagateStep fs0 pb dryRun now) acc).1 q =
      read_text acc.1 q := by
  induction l generalizing acc with
  | nil => rfl
  | cons p rest ih =>
    rw [List.map_cons] at hq
    have hq' : q ∉ rest.map (fun p => p.path) :=
      fun h => hq (List.mem_cons_of_mem _ h)
    have hqp : p.path ≠ q :=
      fun h => hq (h ▸ List.mem_cons_self _ _)
    rw [List.foldl_cons, ih _ hq']
    unfold propagateStep
    dsimp only
    split_ifs
    · rfl
    · exact read_text_write_other acc.1 p.path _ now q hqp
    · rfl

/-- After a non-dry propagation fold over providers with pairwise distinct
paths, every provider's file holds exactly its assembled desired content,
provided the accumulator agreed with the snapshot on those paths. -/
theorem propagate_desired (fs0 : FS) (pb : List Char) (now : Nat) :
    ∀ (l : List ProviderSpec) (acc : FS × List String),
      (l.map (fun p => p.path)).Nodup →
      (∀ p ∈ l, read_text acc.1 p.path = read_text fs0 p.path) →
      ∀ p ∈ l,
        read_text (l.foldl (propagateStep fs0 pb false now) acc).1 p.path =
          assemble_provider_content p.header pb p.footer := by
  intro l
  induction l with
  | nil => intro acc _ _ p hp; simp at hp
  | cons p rest ih =>
    intro acc hnd hagree q hq
    rw [List.map_cons, List.nodup_cons] at hnd
    obtain ⟨hnotin, hnd'⟩ := hnd
    rw [List.foldl_cons]
    rcases List.mem_cons.mp hq with rfl | hq'
    · rw [propagate_frame fs0 pb false now rest _ q.path hnotin]
      unfold propagateStep
      dsimp only
      split_ifs with h1 h2
      · exact h2.elim
      · exact read_text_write_same acc.1 q.path _ now
      · rw [hagree q (List.mem_cons_self q rest)]
        exact not_ne_iff.mp h1
    · apply ih _ hnd' _ q hq'
      intro r hr
      have hrp : p.path ≠ r.path :=
        fun h => hnotin (h ▸ List.mem_map_of_mem _ hr)
      unfold propagateStep
      dsimp only
      split_ifs with h1 h2
      · exact h2.elim
      · rw [read_text_write_other acc.1 p.path _ now r.path hrp]
        exact hagree r (List.mem_cons_of_mem p hr)
      · exact hagree r (List.mem_cons_of_mem p hr)

/-- When every provider's file already holds its desired content, the
propagation fold is the identity: zero writes. -/
theorem propagate_fixed (fs0 : FS) (pb : List Char) (dryRun : Bool) (now : Nat) :
    ∀ (l : List ProviderSpec) (acc : FS × List String),
      (∀ p ∈ l,
        read_text fs0 p.path = assemble_provider_content p.header pb p.footer) →
      l.foldl (propagateStep fs0 pb dryRun now) acc = acc := by
  intro l
  induction l with
  | nil => intro acc _; rfl
  | cons p rest ih =>
    intro acc h
    rw [List.foldl_cons]
    have hstep : propagateStep fs0 pb dryRun now acc p = acc := by
      unfold propagateStep
      dsimp only
      rw [if_neg (not_ne_iff.mpr (h p (List.mem_cons_self p rest)))]
    rw [hstep]
    exact ih acc fun q hq => h q (List.mem_cons_of_mem p hq)

/-- A second `detect_primary` call with the same policy cannot fail if the
first succeeded: the fixed-policy membership test does not read the
filesystem, and the auto branch always returns a name. -/
theorem detect_primary_ok_later (spec : CommandSpec) (fs fs' : FS)
    (policy primary : String)
    (h : detect_primary spec fs policy = Except.ok primary) :
    ∃ primary2, detect_primary spec fs' policy = Except.ok primary2 := by
  unfold detect_primary at h ⊢
  split_ifs at h ⊢ with hc ha
  · exact ⟨policy, rfl⟩
  · cases hf : spec.providers.foldl (autoStep fs') none with
    | none => exact ⟨"claude", rfl⟩
    | some c => exact ⟨c.1, rfl⟩

/-- The name selected by a successful auto fold is a provider's name. -/
theorem auto_ok_name (fs : FS) (spec : CommandSpec) (c : String × Nat)
    (hf : spec.providers.foldl (autoStep fs) none = some c) :
    ∃ p ∈ spec.providers, p.name = c.1 := by
  obtain ⟨hmem, -, -⟩ :=
    autoFold_some_inv fs spec.providers none c.1 c.2 (by rw [hf])
  rcases hmem with ⟨p, hp, hn, -, -⟩ | h'
  · exact ⟨p, hp, hn⟩
  · simp at h'

/-- A name carried by some provider is found by the dict lookup. -/
theorem findProvider_of_name (spec : CommandSpec) (n : String)
    (h : ∃ p ∈ spec.providers, p.name = n) :
    ∃ q, findProvider spec n = some q ∧ q ∈ spec.providers := by
  unfold findProvider
  obtain ⟨p, hp, hn⟩ := h
  cases hf : spec.providers.find? (fun p => p.name == n) with
  | some q => exact ⟨q, rfl, List.mem_of_find?_eq_some hf⟩
  | none =>
    exfalso
    exact List.find?_eq_none.mp hf p hp (by simp [hn])

/-! ### Claim C5 -/

/-- The two-provider command of the C5 counterexample: `claude` wraps with
header `"H\n"`, `cursor` has no wrappers. -/
def specCollide : CommandSpec :=
  ⟨"cmd", [⟨"claude", "a", "H\n".toList, []⟩, ⟨"cursor", "b", [], []⟩]⟩

/-- Only `claude`'s file exists, and its body itself starts with the header. -/
def fsCollide : FS := [("a", "H\nH\nx".toList, 10)]

/-- C5 counterexample: a successful first sync (it writes `b`) is followed by
a second sync that writes both files again — the body `"H\nx"` collides with
`claude`'s header, so re-normalizing the freshly written `b` loses a wrapper
occurrence and propagation rewrites the files. -/
theorem second_sync_writes_again :
    (sync_command specCollide fsCollide "auto" false 20).err = none ∧
    (sync_command specCollide
      (sync_command specCollide fsCollide "auto" false 20).fs
      "auto" false 30).written ≠ [] := by decide

/-- C5 amended: after a successful non-dry sync, a second non-dry sync
performs zero writes (and leaves the filesystem bit-identical), provided
provider paths are pairwise distinct and no provider's assembled content
collides with the wrappers — i.e. normalizing `header + primary_body +
footer` recovers `primary_body` for every provider. Without the no-collision
condition a second run can write again. -/
theorem second_sync_no_writes (spec : CommandSpec) (fs : FS) (policy : String)
    (now now2 : Nat) (primary : String)
    (hnd : (spec.providers.map (fun p => p.path)).Nodup)
    (hp : detect_primary spec fs policy = Except.ok primary)
    (hnc : conflictList spec fs primary = [])
    (hB : ∀ p ∈ spec.providers,
      strip_known_wrappers
        (assemble_provider_content p.header (primaryBodyOf spec fs primary)
          p.footer) spec.providers = primaryBodyOf spec fs primary) :
    (sync_command spec fs policy false now).err = none ∧
    sync_command spec (sync_command spec fs policy false now).fs policy
        false now2 =
      ⟨(sync_command spec fs policy false now).fs, [], none⟩ := by
  have hs1 : sync_command spec fs policy false now =
      ⟨(propagate spec fs (primaryBodyOf spec fs primary) false now).1,
       (propagate spec fs (primaryBodyOf spec fs primary) false now).2,
       none⟩ := by
    unfold sync_command
    rw [hp]
    exact if_neg (by simp [hnc])
  have hcontent : ∀ p ∈ spec.providers,
      read_text (propagate spec fs (primaryBodyOf spec fs primary) false now).1
        p.path =
      assemble_provider_content p.header (primaryBodyOf spec fs primary)
        p.footer := by
    intro p hp'
    exact propagate_desired fs (primaryBodyOf spec fs primary) now
      spec.providers (fs, []) hnd (fun q _ => rfl) p hp'
  have hbody1 : ∀ p ∈ spec.providers,
      bodyOf spec
        (propagate spec fs (primaryBodyOf spec fs primary) false now).1 p =
      primaryBodyOf spec fs primary := by
    intro p hp'
    unfold bodyOf
    rw [hcontent p hp']
    exact hB p hp'
  obtain ⟨primary2, hp2⟩ := detect_primary_ok_later spec fs
    (propagate spec fs (primaryBodyOf spec fs primary) false now).1
    policy primary hp
  have hpb2 : primaryBodyOf spec
      (propagate spec fs (primaryBodyOf spec fs primary) false now).1 primary2 =
      primaryBodyOf spec fs primary := by
    cases hfp : findProvider spec primary2 with
    | some q =>
      have hqmem : q ∈ spec.providers := by
        unfold findProvider at hfp
        exact List.mem_of_find?_eq_some hfp
      unfold primaryBodyOf
      rw [hfp]
      dsimp only
      exact hbody1 q hqmem
    | none =>
      have hB_nil : primaryBodyOf spec fs primary = [] := by
        unfold detect_primary at hp2
        split_ifs at hp2 with hc ha
        · injection hp2 with hpe
          exfalso
          obtain ⟨p, hpmem, hpb⟩ := List.any_eq_true.mp ha
          obtain ⟨q, hq, -⟩ := findProvider_of_name spec primary2
            ⟨p, hpmem, by rw [← hpe]; simpa using hpb⟩
          rw [hfp] at hq
          simp at hq
        · cases hf2 : spec.providers.foldl
            (autoStep (propagate spec fs (primaryBodyOf spec fs primary)
              false now).1) none with
          | some c =>
            rw [hf2] at hp2
            injection hp2 with hpe
            exfalso
            obtain ⟨p, hpmem, hn⟩ := auto_ok_name _ spec c hf2
            obtain ⟨q, hq, -⟩ := findProvider_of_name spec primary2
              ⟨p, hpmem, by rw [hn, hpe]⟩
            rw [hfp] at hq
            simp at hq
          | none =>
            have hallabs := (autoFold_none_inv _ spec.providers none hf2).2
            cases hprov : spec.providers with
            | nil =>
              have hfnone : findProvider spec primary = none := by
                unfold findProvider
                rw [hprov]
                rfl
              unfold primaryBodyOf
              rw [hfnone]
            | cons p0 rest =>
              have hp0 : p0 ∈ spec.providers := by
                rw [hprov]
                exact List.mem_cons_self _ _
              have habs := hallabs p0 hp0
              have hrd := (absent_file _ p0.path habs).1
              have hct := hcontent p0 hp0
              rw [hrd] at hct
              unfold assemble_provider_content at hct
              obtain ⟨h4, -⟩ := List.append_eq_nil.mp hct.symm
              exact (List.append_eq_nil.mp h4).2
      unfold primaryBodyOf
      rw [hfp]
      dsimp only
      exact hB_nil.symm
  have hc2 : conflictList spec
      (propagate spec fs (primaryBodyOf spec fs primary) false now).1
      primary2 = [] := by
    unfold conflictList
    rw [List.filterMap_eq_nil_iff]
    intro q hq
    refine if_neg ?_
    rintro ⟨-, -, hdiff, -⟩
    exact hdiff (by rw [hbody1 q hq, hpb2])
  have hagree2 : ∀ q ∈ spec.providers,
      read_text (propagate spec fs (primaryBodyOf spec fs primary) false now).1
        q.path =
      assemble_provider_content q.header
        (primaryBodyOf spec
          (propagate spec fs (primaryBodyOf spec fs primary) false now).1
          primary2) q.footer := by
    intro q hq
    rw [hpb2]
    exact hcontent q hq
  have hprop2 : propagate spec
      (propagate spec fs (primaryBodyOf spec fs primary) false now).1
      (primaryBodyOf spec
        (propagate spec fs (primaryBodyOf spec fs primary) false now).1
        primary2) false now2 =
      ((propagate spec fs (primaryBodyOf spec fs primary) false now).1, []) := by
    unfold propagate
    exact propagate_fixed _ _ false now2 spec.providers _ hagree2
  have hs2 : sync_command spec
      (propagate spec fs (primaryBodyOf spec fs primary) false now).1 policy
      false now2 =
      ⟨(propagate spec fs (primaryBodyOf spec fs primary) false now).1, [],
        none⟩ := by
    unfold sync_command
    rw [hp2]
    dsimp only
    rw [if_neg (by simp [hc2]), hprop2]
  refine ⟨by rw [hs1], ?_⟩
  rw [hs1]
  exact hs2

/-- A collision-free C5 scenario: two wrapper-free providers, only `a`
exists. -/
def specPlain : CommandSpec :=
  ⟨"cmd", [⟨"claude", "a", [], []⟩, ⟨"cursor", "b", [], []⟩]⟩

/-- Filesystem for the collision-free scenario. -/
def fsPlain : FS := [("a", "x".toList, 10)]

/-- Witness for the amended C5 at a concrete collision-free input. -/
theorem second_sync_no_writes_witness :
    (sync_command specPlain fsPlain "auto" false 20).err = none ∧
    sync_command specPlain (sync_command specPlain fsPlain "auto" false 20).fs
        "auto" false 30 =
      ⟨(sync_command specPlain fsPlain "auto" false 20).fs, [], none⟩ :=
  second_sync_no_writes specPlain fsPlain "auto" 20 30 "claude" (by decide)
    (by decide) (by decide) (by decide)

end SyncCommands
